import Mathlib

/-!
Verification of `gluonts/distribution/box_cox_tranform.py`.

The source defines the Box-Cox bijection `BoxCoxTranform` with methods
`f` (forward), `f_inv` (inverse) and `log_abs_det_jac`, plus the
parameter-constraint layer `BoxCoxTransformOutput.domain_map`.

All tensor operations in the source are elementwise (with broadcasting),
so the core semantics is captured by real-valued functions of one scalar
element; an additional tensor layer (`ι → ℝ` with a pointwise `where`
select) embeds the elementwise branch selection of the source verbatim.
Floating-point numbers are modelled by exact reals; the float `log`,
which is finite exactly on positive arguments, is additionally modelled
by an `Option ℝ`-valued function where finiteness matters.
-/

noncomputable section

namespace BoxCoxTranform

/-- Backend `relu`: elementwise `max(x, 0)`, as used by `F.relu` in `f_inv`. -/
def relu (x : ℝ) : ℝ := max x 0

/-- Parameters held by a `BoxCoxTranform` instance: `lambda_1`, `lambda_2`
and the branch-selection tolerance `tol_lambda_1` (source default `1e-2`). -/
structure Params where
  lambda_1 : ℝ
  lambda_2 : ℝ
  tol_lambda_1 : ℝ

/-- Elementwise semantics of `BoxCoxTranform.f` (source lines 124-149):
`F.where(condition=|lambda_1| >= tol_lambda_1, x=((z+lambda_2)^lambda_1 - 1)/lambda_1,
y=log(z+lambda_2))`.  `^` is `Real.rpow`, matching the backend power on the
positive-base domain. -/
def f (p : Params) (z : ℝ) : ℝ :=
  if p.tol_lambda_1 ≤ |p.lambda_1| then
    ((z + p.lambda_2) ^ p.lambda_1 - 1) / p.lambda_1
  else
    Real.log (z + p.lambda_2)

/-- Elementwise semantics of `BoxCoxTranform.f_inv` (source lines 151-179):
`base = F.relu(y * lambda_1 + 1.0)` and then
`F.where(condition=|lambda_1| >= tol_lambda_1, x=base^(1/lambda_1) - lambda_2,
y=exp(y) - lambda_2)`. -/
def f_inv (p : Params) (y : ℝ) : ℝ :=
  if p.tol_lambda_1 ≤ |p.lambda_1| then
    relu (y * p.lambda_1 + 1) ^ (1 / p.lambda_1) - p.lambda_2
  else
    Real.exp y - p.lambda_2

/-- Elementwise semantics of `BoxCoxTranform.log_abs_det_jac` (source lines
181-215): `F.where(condition=|lambda_1| >= tol_lambda_1,
x=log(z+lambda_2)*(lambda_1-1), y=-log(z+lambda_2))`. -/
def log_abs_det_jac (p : Params) (z : ℝ) : ℝ :=
  if p.tol_lambda_1 ≤ |p.lambda_1| then
    Real.log (z + p.lambda_2) * (p.lambda_1 - 1)
  else
    -Real.log (z + p.lambda_2)

/-- Float `log` returning a finite value: defined (finite) exactly on
positive arguments; on `x ≤ 0` the float backend returns `-inf`/`NaN`,
modelled as `none`. -/
def flog (x : ℝ) : Option ℝ := if 0 < x then some (Real.log x) else none

/-- `BoxCoxTranform.log_abs_det_jac` with the float-finiteness of `log`
made explicit: same computation as `log_abs_det_jac`, but through `flog`,
so the result is `some _` exactly when the `log` argument is positive. -/
def log_abs_det_jacF (p : Params) (z : ℝ) : Option ℝ :=
  (flog (z + p.lambda_2)).map fun l =>
    if p.tol_lambda_1 ≤ |p.lambda_1| then l * (p.lambda_1 - 1) else -l

open Classical in
/-- Elementwise `where` select of the backend (`F.where`): per element `i`
the condition `c i` picks `x i` or `y i`. -/
def tWhere {ι : Type} (c : ι → Prop) (x y : ι → ℝ) : ι → ℝ :=
  fun i => if c i then x i else y i

/-- Tensor form of `BoxCoxTranform.f` over an index type `ι` (tensors are
`ι → ℝ` with broadcasting already applied): condition, both branch bodies
and the select are all elementwise, exactly as in the source
(`F.abs(lambda_1).__ge__(tol_lambda_1).broadcast_like(z)` as condition). -/
def fT {ι : Type} (lambda_1 lambda_2 : ι → ℝ) (tol_lambda_1 : ℝ)
    (z : ι → ℝ) : ι → ℝ :=
  tWhere (fun i => tol_lambda_1 ≤ |lambda_1 i|)
    (fun i => ((z i + lambda_2 i) ^ lambda_1 i - 1) / lambda_1 i)
    (fun i => Real.log (z i + lambda_2 i))

/-- Tensor form of `BoxCoxTranform.f_inv`: `base = relu(y*lambda_1 + 1)` is
clamped elementwise and used only in the power branch; the `exp` branch is
unclamped, exactly as in the source. -/
def f_invT {ι : Type} (lambda_1 lambda_2 : ι → ℝ) (tol_lambda_1 : ℝ)
    (y : ι → ℝ) : ι → ℝ :=
  tWhere (fun i => tol_lambda_1 ≤ |lambda_1 i|)
    (fun i => relu (y i * lambda_1 i + 1) ^ (1 / lambda_1 i) - lambda_2 i)
    (fun i => Real.exp (y i) - lambda_2 i)

end BoxCoxTranform

namespace BoxCoxTransformOutput

/-- Modelled from the spec: `softplus` is imported from
`gluonts.distribution.distribution`, which is not under `src/`; the spec
glossary defines it as `log(1 + exp(x))`. -/
def softplus (x : ℝ) : ℝ := Real.log (1 + Real.exp x)

/-- Elementwise semantics of `BoxCoxTransformOutput.domain_map` (source
lines 228-239): `lambda_1` passes through; `lambda_2` is
`lb_obs * ones_like(lambda_2)` when `fix_lambda_2`, else
`softplus(lambda_2) - lb_obs * ones_like(lambda_2)`.  `ones_like` is the
constant `1` per element; the trailing `squeeze` is a pure shape operation
with no elementwise effect. -/
def domain_map (lb_obs : ℝ) (fix_lambda_2 : Bool)
    (lambda_1 lambda_2 : ℝ) : ℝ × ℝ :=
  (lambda_1,
    if fix_lambda_2 then lb_obs * 1 else softplus lambda_2 - lb_obs * 1)

end BoxCoxTransformOutput

namespace BoxCoxTranform

/-- C2: forward map contract — elementwise, if `|lambda_1 i| >= tol_lambda_1`
then `f(z) i = ((z i + lambda_2 i)^(lambda_1 i) - 1)/(lambda_1 i)`, else
`f(z) i = log(z i + lambda_2 i)`; the branch is decided per element of the
broadcast `lambda_1` by the elementwise select, so each element agrees with
the scalar contract taken at that element's own `lambda_1`. -/
theorem f_elementwise_contract {ι : Type} (lambda_1 lambda_2 z : ι → ℝ)
    (tol_lambda_1 : ℝ) (i : ι) :
    fT lambda_1 lambda_2 tol_lambda_1 z i =
      (if tol_lambda_1 ≤ |lambda_1 i| then
        ((z i + lambda_2 i) ^ lambda_1 i - 1) / lambda_1 i
      else Real.log (z i + lambda_2 i)) ∧
    fT lambda_1 lambda_2 tol_lambda_1 z i =
      f ⟨lambda_1 i, lambda_2 i, tol_lambda_1⟩ (z i) := by
  constructor <;> simp only [fT, tWhere, f]

/-- C3: inverse map contract — elementwise, with
`base i = relu(y i * lambda_1 i + 1)`, if `|lambda_1 i| >= tol_lambda_1`
then `f_inv(y) i = base i ^ (1/lambda_1 i) - lambda_2 i`, else
`f_inv(y) i = exp(y i) - lambda_2 i`; the relu clamp appears only in the
power branch and the exp branch is unclamped. -/
theorem f_inv_elementwise_contract {ι : Type} (lambda_1 lambda_2 y : ι → ℝ)
    (tol_lambda_1 : ℝ) (i : ι) :
    f_invT lambda_1 lambda_2 tol_lambda_1 y i =
      (if tol_lambda_1 ≤ |lambda_1 i| then
        relu (y i * lambda_1 i + 1) ^ (1 / lambda_1 i) - lambda_2 i
      else Real.exp (y i) - lambda_2 i) ∧
    f_invT lambda_1 lambda_2 tol_lambda_1 y i =
      f_inv ⟨lambda_1 i, lambda_2 i, tol_lambda_1⟩ (y i) := by
  constructor <;> simp only [f_invT, tWhere, f_inv]

/-- C10: inverse range invariant — for every input `y` and parameters,
`f_inv(y) >= -lambda_2`: the relu clamp makes the power-branch base
non-negative so its fractional power is non-negative, and on the log/exp
branch the bound is strict since `exp(y) > 0`. -/
theorem f_inv_range_invariant (p : Params) (y : ℝ) :
    -p.lambda_2 ≤ f_inv p y ∧
    (|p.lambda_1| < p.tol_lambda_1 → -p.lambda_2 < f_inv p y) := by
  unfold f_inv
  constructor
  · split_ifs with h
    · have hb : (0 : ℝ) ≤ relu (y * p.lambda_1 + 1) := le_max_right _ _
      have hp := Real.rpow_nonneg hb (1 / p.lambda_1)
      linarith
    · have := Real.exp_pos y
      linarith
  · intro hlt
    rw [if_neg (not_le.mpr hlt)]
    have := Real.exp_pos y
    linarith

/-- Witness for C10 at `lambda_1 = 0`, `lambda_2 = 0`, `tol = 1/100`,
`y = 0` (log/exp branch, strict bound). -/
theorem f_inv_range_invariant_witness :
    -(0 : ℝ) < f_inv ⟨0, 0, 1/100⟩ 0 :=
  (f_inv_range_invariant ⟨0, 0, 1/100⟩ 0).2 (by norm_num)

/-- C7 counterexample: with `lambda_1 = 1`, `lambda_2 = 0`, the claim
`f_inv(y) = y + 1` fails at `y = -2`: the relu clamp gives
`f_inv(-2) = relu(-1)^1 - 0 = 0`, not `-1`. -/
theorem scalar_case_counterexample :
    f_inv ⟨1, 0, 1/100⟩ (-2) = 0 ∧ (0 : ℝ) ≠ (-2 : ℝ) + 1 := by
  constructor
  · unfold f_inv
    rw [if_pos (by norm_num)]
    rw [show relu ((-2) * (1 : ℝ) + 1) = 0 from max_eq_right (by norm_num)]
    rw [show (1 : ℝ) / 1 = 1 by norm_num, Real.rpow_one]
    norm_num
  · norm_num

/-- C7 amended: with `lambda_1 = 1`, `lambda_2 = 0` the forward map is
`f(z) = z - 1` exactly for every `z`, and the inverse is
`f_inv(y) = y + 1` exactly for every `y` with `y + 1 >= 0`; for `y + 1 < 0`
the relu clamp yields `f_inv(y) = 0` instead. -/
theorem scalar_case_amended_thm (z y : ℝ) (hy : 0 ≤ y + 1) :
    f ⟨1, 0, 1/100⟩ z = z - 1 ∧ f_inv ⟨1, 0, 1/100⟩ y = y + 1 := by
  constructor
  · unfold f
    rw [if_pos (by norm_num)]
    norm_num [Real.rpow_one]
  · unfold f_inv
    rw [if_pos (by norm_num)]
    rw [show y * (1 : ℝ) + 1 = y + 1 by ring]
    rw [show relu (y + 1) = y + 1 from max_eq_left hy]
    rw [show (1 : ℝ) / 1 = 1 by norm_num, Real.rpow_one]
    norm_num

/-- Witness for the amended C7 at `z = 5`, `y = 3`. -/
theorem scalar_case_amended_thm_witness :
    f ⟨1, 0, 1/100⟩ 5 = 5 - 1 ∧ f_inv ⟨1, 0, 1/100⟩ 3 = 3 + 1 :=
  scalar_case_amended_thm 5 3 (by norm_num)

end BoxCoxTranform

namespace BoxCoxTransformOutput

/-- C9: fixed-`lambda_2` mode — with `fix_lambda_2 = true` the returned
`lambda_2` equals the constant `lb_obs` for every raw input, so the raw
`lambda_2` input has no influence on the output. -/
theorem domain_map_fixed_lambda_2 (lb_obs lambda_1 lambda_2 : ℝ) :
    (domain_map lb_obs true lambda_1 lambda_2).2 = lb_obs ∧
    ∀ r : ℝ, (domain_map lb_obs true lambda_1 r).2 =
      (domain_map lb_obs true lambda_1 lambda_2).2 := by
  constructor
  · simp [domain_map]
  · intro r
    simp [domain_map]

/-- C8: learned-`lambda_2` mode — with `fix_lambda_2 = false` the constraint
layer returns `lambda_2 = softplus(raw) - lb_obs`, which satisfies
`lambda_2 > -lb_obs` (since `softplus(raw) > 0`), so
`obs + lambda_2 > 0` whenever `obs > lb_obs`. -/
theorem domain_map_learned_lambda_2 (lb_obs lambda_1 lambda_2 obs : ℝ)
    (hobs : lb_obs < obs) :
    (domain_map lb_obs false lambda_1 lambda_2).2 =
      softplus lambda_2 - lb_obs ∧
    -lb_obs < (domain_map lb_obs false lambda_1 lambda_2).2 ∧
    0 < obs + (domain_map lb_obs false lambda_1 lambda_2).2 := by
  have hexp := Real.exp_pos lambda_2
  have hsp : 0 < softplus lambda_2 := Real.log_pos (by linarith)
  refine ⟨by simp [domain_map], ?_, ?_⟩ <;>
    · simp only [domain_map, Bool.false_eq_true, if_false, mul_one]
      linarith

/-- Witness for C8 at `lb_obs = 5`, raw inputs `0`, observation `6`:
the returned `lambda_2` exceeds `-5`. -/
theorem domain_map_learned_lambda_2_witness :
    (domain_map 5 false 0 0).2 = softplus 0 - 5 ∧
    -(5 : ℝ) < (domain_map 5 false 0 0).2 ∧
    0 < (6 : ℝ) + (domain_map 5 false 0 0).2 :=
  domain_map_learned_lambda_2 5 0 0 6 (by norm_num)

end BoxCoxTransformOutput

namespace BoxCoxTranform

/-- C1: round-trip — for every `z` with `z + lambda_2 > 0` and
`|lambda_1| >= tol_lambda_1 > 0`, the inverse of the forward transform
recovers `z` exactly: `f_inv(f(z)) = z`. -/
theorem f_inv_f_roundtrip (p : Params) (z : ℝ)
    (hz : 0 < z + p.lambda_2) (hl : p.tol_lambda_1 ≤ |p.lambda_1|)
    (htol : 0 < p.tol_lambda_1) :
    f_inv p (f p z) = z := by
  have hne : p.lambda_1 ≠ 0 := by
    intro h0
    rw [h0, abs_zero] at hl
    linarith
  unfold f f_inv
  rw [if_pos hl, if_pos hl]
  have hmul : ((z + p.lambda_2) ^ p.lambda_1 - 1) / p.lambda_1 * p.lambda_1 + 1
      = (z + p.lambda_2) ^ p.lambda_1 := by
    field_simp
  rw [hmul]
  have hpos : 0 < (z + p.lambda_2) ^ p.lambda_1 := Real.rpow_pos_of_pos hz _
  rw [show relu ((z + p.lambda_2) ^ p.lambda_1) = (z + p.lambda_2) ^ p.lambda_1
    from max_eq_left hpos.le]
  rw [← Real.rpow_mul hz.le, mul_one_div_cancel hne, Real.rpow_one]
  ring

/-- Witness for C1 at `lambda_1 = 1`, `lambda_2 = 0`, `tol = 1/100`, `z = 2`. -/
theorem f_inv_f_roundtrip_witness :
    f_inv ⟨1, 0, 1/100⟩ (f ⟨1, 0, 1/100⟩ 2) = 2 :=
  f_inv_f_roundtrip ⟨1, 0, 1/100⟩ 2 (by norm_num) (by norm_num) (by norm_num)

/-- C4: out-of-domain inverse recovery — for every `y` with
`y * lambda_1 + 1 < 0` and `|lambda_1| >= tol_lambda_1`, `f_inv` returns
the clamped real value `relu(y*lambda_1+1)^(1/lambda_1) - lambda_2`; the
clamp drives the base to `0`, so the result equals
`0^(1/lambda_1) - lambda_2` (a real number, never an error). -/
theorem f_inv_out_of_domain_clamp (p : Params) (y : ℝ)
    (hy : y * p.lambda_1 + 1 < 0) (hl : p.tol_lambda_1 ≤ |p.lambda_1|) :
    f_inv p y = relu (y * p.lambda_1 + 1) ^ (1 / p.lambda_1) - p.lambda_2 ∧
    relu (y * p.lambda_1 + 1) = 0 ∧
    f_inv p y = (0 : ℝ) ^ (1 / p.lambda_1) - p.lambda_2 := by
  have hr : relu (y * p.lambda_1 + 1) = 0 := max_eq_right hy.le
  refine ⟨?_, hr, ?_⟩
  · unfold f_inv
    rw [if_pos hl]
  · unfold f_inv
    rw [if_pos hl, hr]

/-- Witness for C4 at the documented instability example
`lambda_1 = 1.1 = 11/10`, `lambda_2 = 0`, `y = -0.91 = -91/100`
(where `y * lambda_1 + 1 = -1/1000 < 0`). -/
theorem f_inv_out_of_domain_clamp_witness :
    f_inv ⟨11/10, 0, 1/100⟩ (-91/100) =
      relu ((-91/100) * (11/10) + 1) ^ (1 / (11/10 : ℝ)) - 0 ∧
    relu ((-91/100 : ℝ) * (11/10) + 1) = 0 ∧
    f_inv ⟨11/10, 0, 1/100⟩ (-91/100) = (0 : ℝ) ^ (1 / (11/10 : ℝ)) - 0 :=
  f_inv_out_of_domain_clamp ⟨11/10, 0, 1/100⟩ (-91/100)
    (by norm_num) (by norm_num [abs_of_pos])

end BoxCoxTranform

namespace BoxCoxTranform

/-- C5: log-abs-det-Jacobian contract — elementwise,
`log_abs_det_jac(z) = log(z+lambda_2)*(lambda_1-1)` when
`|lambda_1| >= tol_lambda_1` and `-log(z+lambda_2)` otherwise; and under
`z + lambda_2 > 0` the forward map has derivative
`(z+lambda_2)^(lambda_1-1)` (power branch) resp. `(z+lambda_2)⁻¹`
(log branch) at `z`, whose log-absolute-value equals `log_abs_det_jac(z)`. -/
theorem log_abs_det_jac_contract (p : Params) (z : ℝ)
    (hz : 0 < z + p.lambda_2) (htol : 0 < p.tol_lambda_1) :
    log_abs_det_jac p z =
      (if p.tol_lambda_1 ≤ |p.lambda_1| then
        Real.log (z + p.lambda_2) * (p.lambda_1 - 1)
      else -Real.log (z + p.lambda_2)) ∧
    HasDerivAt (f p)
      (if p.tol_lambda_1 ≤ |p.lambda_1| then
        (z + p.lambda_2) ^ (p.lambda_1 - 1)
      else (z + p.lambda_2)⁻¹) z ∧
    log_abs_det_jac p z =
      Real.log
        |if p.tol_lambda_1 ≤ |p.lambda_1| then
          (z + p.lambda_2) ^ (p.lambda_1 - 1)
        else (z + p.lambda_2)⁻¹| := by
  have hzne : z + p.lambda_2 ≠ 0 := ne_of_gt hz
  have hadd : HasDerivAt (fun w : ℝ => w + p.lambda_2) 1 z := by
    simpa using (hasDerivAt_id z).add_const p.lambda_2
  refine ⟨rfl, ?_, ?_⟩
  · by_cases h : p.tol_lambda_1 ≤ |p.lambda_1|
    · have hne : p.lambda_1 ≠ 0 := by
        intro h0
        rw [h0, abs_zero] at h
        linarith
      have hf : f p = fun w => ((w + p.lambda_2) ^ p.lambda_1 - 1) / p.lambda_1 :=
        funext fun w => if_pos h
      have hp1 : HasDerivAt (fun w : ℝ => (w + p.lambda_2) ^ p.lambda_1)
          (1 * p.lambda_1 * (z + p.lambda_2) ^ (p.lambda_1 - 1)) z :=
        hadd.rpow_const (Or.inl hzne)
      have hp2 := (hp1.sub_const 1).div_const p.lambda_1
      have hd : 1 * p.lambda_1 * (z + p.lambda_2) ^ (p.lambda_1 - 1) / p.lambda_1
          = (z + p.lambda_2) ^ (p.lambda_1 - 1) := by
        field_simp
      rw [if_pos h, hf]
      exact hd ▸ hp2
    · have hf : f p = fun w => Real.log (w + p.lambda_2) :=
        funext fun w => if_neg h
      have hp2 : HasDerivAt (fun w : ℝ => Real.log (w + p.lambda_2))
          (1 / (z + p.lambda_2)) z := hadd.log hzne
      rw [if_neg h, hf, ← one_div]
      exact hp2
  · by_cases h : p.tol_lambda_1 ≤ |p.lambda_1|
    · rw [if_pos h]
      unfold log_abs_det_jac
      rw [if_pos h, abs_of_pos (Real.rpow_pos_of_pos hz _), Real.log_rpow hz,
        mul_comm]
    · rw [if_neg h]
      unfold log_abs_det_jac
      rw [if_neg h, abs_of_pos (inv_pos.mpr hz), Real.log_inv]

/-- Witness for C5 at `lambda_1 = 1`, `lambda_2 = 0`, `tol = 1/100`, `z = 1`. -/
theorem log_abs_det_jac_contract_witness :
    log_abs_det_jac ⟨1, 0, 1/100⟩ 1 =
      (if (1/100 : ℝ) ≤ |(1 : ℝ)| then Real.log (1 + 0) * (1 - 1)
        else -Real.log (1 + 0)) ∧
    HasDerivAt (f ⟨1, 0, 1/100⟩)
      (if (1/100 : ℝ) ≤ |(1 : ℝ)| then ((1 : ℝ) + 0) ^ ((1 : ℝ) - 1)
        else ((1 : ℝ) + 0)⁻¹) 1 ∧
    log_abs_det_jac ⟨1, 0, 1/100⟩ 1 =
      Real.log
        |if (1/100 : ℝ) ≤ |(1 : ℝ)| then ((1 : ℝ) + 0) ^ ((1 : ℝ) - 1)
          else ((1 : ℝ) + 0)⁻¹| :=
  log_abs_det_jac_contract ⟨1, 0, 1/100⟩ 1 (by norm_num) (by norm_num)

/-- C6: monotonicity and finiteness — for fixed parameters with
`tol_lambda_1 > 0`, the forward map is strictly increasing on the valid
domain (`z1 < z2` with both `zi + lambda_2 > 0` gives `f(z1) < f(z2)`),
and on the valid domain `log_abs_det_jac` is finite: the float-log model
returns `some` of the real value. -/
theorem f_strictMono_and_ladj_finite (p : Params) (z1 z2 z3 : ℝ)
    (htol : 0 < p.tol_lambda_1)
    (h1 : 0 < z1 + p.lambda_2) (_h2 : 0 < z2 + p.lambda_2)
    (hlt : z1 < z2) (h3 : 0 < z3 + p.lambda_2) :
    f p z1 < f p z2 ∧
    log_abs_det_jacF p z3 = some (log_abs_det_jac p z3) := by
  constructor
  · unfold f
    split_ifs with h
    · have hne : p.lambda_1 ≠ 0 := by
        intro h0
        rw [h0, abs_zero] at h
        linarith
      rcases hne.lt_or_lt with hneg | hpos
      · have hp : (z2 + p.lambda_2) ^ p.lambda_1 <
            (z1 + p.lambda_2) ^ p.lambda_1 :=
          Real.rpow_lt_rpow_of_neg h1 (by linarith) hneg
        exact div_lt_div_of_neg_of_lt hneg (by linarith)
      · have hp : (z1 + p.lambda_2) ^ p.lambda_1 <
            (z2 + p.lambda_2) ^ p.lambda_1 :=
          Real.rpow_lt_rpow h1.le (by linarith) hpos
        exact div_lt_div_of_pos_right (by linarith) hpos
    · exact Real.log_lt_log h1 (by linarith)
  · simp only [log_abs_det_jacF, flog, if_pos h3, Option.map_some']
    rfl

/-- Witness for C6 at `lambda_1 = 1`, `lambda_2 = 0`, `tol = 1/100`,
`z1 = 1 < z2 = 2`, finiteness at `z3 = 1`. -/
theorem f_strictMono_and_ladj_finite_witness :
    f ⟨1, 0, 1/100⟩ 1 < f ⟨1, 0, 1/100⟩ 2 ∧
    log_abs_det_jacF ⟨1, 0, 1/100⟩ 1 =
      some (log_abs_det_jac ⟨1, 0, 1/100⟩ 1) :=
  f_strictMono_and_ladj_finite ⟨1, 0, 1/100⟩ 1 2 1 (by norm_num)
    (by norm_num) (by norm_num) (by norm_num) (by norm_num)

end BoxCoxTranform
